import Mathlib

/-!
Verification of the in-memory cosine-similarity index of
`src/nodejs-cli/vector_search.js` and of the batching orchestrator of
`src/nodejs-cli/app.js`, against the repository specification.

Modelling conventions (shallow embedding):
- JavaScript finite numbers are idealised as elements of a linear ordered
  field `α` (instantiated with `ℚ` for executable witnesses and with `ℝ`
  where the exact value of a square root matters).  A JavaScript number as
  observed by the code is either finite or one of `NaN`, `Infinity`,
  `-Infinity`; the type `JsNum α` carries all four cases and its arithmetic
  follows the IEEE rules used by JavaScript (no negative zero and no
  overflow in the model: rationals are exact).
- `Float32Array.from` is idealised as the identity on number lists.
- `Math.hypot` is a float procedure whose exact value is irrational in
  general; the model passes it around as an explicit function argument
  `hypot : List α → α`.  Theorems either hold for every such function or
  instantiate it with the exact real square root of the sum of squares.
- `Array.prototype.sort` (ES2019 and later) is a stable sort driven by the
  comparator; `SortCompare` treats a `NaN` comparator result as `0`
  (equal).  The model uses `List.insertionSort`, the canonical stable
  sort: for a consistent comparator the stably sorted permutation is
  unique, so this is extensionally the behaviour of the source.
- A JavaScript value that may be `undefined` is modelled with `Option`;
  reading a missing typed-array element yields `undefined`, which behaves
  as `NaN` in arithmetic.
-/

/-- A JavaScript number as observed by the vector-search code: a finite
value, `NaN`, `Infinity` or `-Infinity`. -/
inductive JsNum (α : Type) where
  | fin (x : α)
  | nan
  | inf
  | ninf
deriving DecidableEq

variable {α : Type} [LinearOrderedField α]

/-- JavaScript addition on `JsNum` (IEEE rules; `NaN` is absorbing,
`Infinity + -Infinity = NaN`). -/
def JsNum.add : JsNum α → JsNum α → JsNum α
  | fin x, fin y => fin (x + y)
  | fin _, inf => inf
  | fin _, ninf => ninf
  | inf, fin _ => inf
  | ninf, fin _ => ninf
  | inf, inf => inf
  | ninf, ninf => ninf
  | inf, ninf => nan
  | ninf, inf => nan
  | _, _ => nan

/-- JavaScript subtraction on `JsNum`. -/
def JsNum.sub : JsNum α → JsNum α → JsNum α
  | fin x, fin y => fin (x - y)
  | fin _, inf => ninf
  | fin _, ninf => inf
  | inf, fin _ => inf
  | ninf, fin _ => ninf
  | inf, ninf => inf
  | ninf, inf => ninf
  | inf, inf => nan
  | ninf, ninf => nan
  | _, _ => nan

/-- JavaScript multiplication on `JsNum` (`0 * Infinity = NaN`). -/
def JsNum.mul : JsNum α → JsNum α → JsNum α
  | fin x, fin y => fin (x * y)
  | fin x, inf => if 0 < x then inf else if x < 0 then ninf else nan
  | fin x, ninf => if 0 < x then ninf else if x < 0 then inf else nan
  | inf, fin y => if 0 < y then inf else if y < 0 then ninf else nan
  | ninf, fin y => if 0 < y then ninf else if y < 0 then inf else nan
  | inf, inf => inf
  | inf, ninf => ninf
  | ninf, inf => ninf
  | ninf, ninf => inf
  | _, _ => nan

/-- JavaScript division on `JsNum`: division by zero yields a signed
infinity (`0 / 0 = NaN`), division of a finite number by an infinity
yields `0` (the model has no negative zero). -/
def JsNum.div : JsNum α → JsNum α → JsNum α
  | fin x, fin y =>
      if y = 0 then (if 0 < x then inf else if x < 0 then ninf else nan)
      else fin (x / y)
  | fin _, inf => fin 0
  | fin _, ninf => fin 0
  | inf, fin y => if y < 0 then ninf else inf
  | ninf, fin y => if y < 0 then inf else ninf
  | _, _ => nan

/-- Is this number finite? -/
def JsNum.isFin : JsNum α → Bool
  | fin _ => true
  | _ => false

/-- The finite value of a `JsNum` (defaulting to `0` on the non-finite
cases, which the theorems exclude before using it). -/
def JsNum.val : JsNum α → α
  | fin x => x
  | _ => 0

/-- Is this number strictly positive?  (`NaN` is not; used to model the
branch `comparator result > 0` taken by `SortCompare`.) -/
def JsNum.isPos : JsNum α → Bool
  | fin x => decide (0 < x)
  | inf => true
  | _ => false

/-- One stored index entry, mirroring
`this.docs.push({ id, vector: Float32Array.from(vector), norm, ...rest })`
of `vector_search.js`.  `id : Option String` because JavaScript never
validates it (`undefined` is `none`); `norm : Option α` because `loadDocs`
stores whatever the caller supplied, including nothing at all; `meta` is
the open bag of extra string-valued fields spread in by `loadDocs`
(non-string values never match `textSearch` and are otherwise
uninterpreted, so the model carries the string-valued fields). -/
structure Entry (α : Type) where
  id : Option String
  vector : List α
  norm : Option α
  meta : List (String × String)
deriving DecidableEq

/-- The index: `constructor() { this.docs = [] }`. -/
structure VectorSearch (α : Type) where
  docs : List (Entry α)
deriving DecidableEq

/-- `add(id, vector)` from `vector_search.js`:
`const vec = Float32Array.from(vector); const norm = Math.hypot(...vec);
this.docs.push({ id, vector: vec, norm })`.  The float procedure
`Math.hypot` is the explicit argument `hypot`.  Note that `add` stores no
metadata besides `id`, `vector`, `norm`. -/
def VectorSearch.add (hypot : List α → α) (s : VectorSearch α)
    (id : Option String) (v : List α) : VectorSearch α :=
  ⟨s.docs ++ [⟨id, v, some (hypot v), []⟩]⟩

/-- One element of the argument of `loadDocs`, as produced by
`JSON.parse`: any of the fields may be missing (JSON cannot encode
`NaN`/`Infinity`, so a present `norm` is a finite number). -/
structure RawDoc (α : Type) where
  id : Option String
  vector : Option (List α)
  norm : Option α
  meta : List (String × String)
deriving DecidableEq

/-- The dynamic argument of `loadDocs`: an array, or any non-array value
(the case its `Array.isArray` guard rejects). -/
inductive LoadInput (α : Type) where
  | array (docs : List (RawDoc α))
  | nonArray

/-- `loadDocs(docs)` from `vector_search.js`: throws a `TypeError` when the
argument is not an array; then for each element destructures
`{ id, vector, norm, ...rest }` and pushes
`{ id, vector: Float32Array.from(vector), norm, ...rest }`.
`Float32Array.from(undefined)` throws a `TypeError`, so an element with no
`vector` aborts the call; nothing else is validated.  (The thrown
exception aborts the whole build, so the model returns `Except.error`
and does not track the entries the loop had already pushed before
throwing.) -/
def VectorSearch.loadDocs (s : VectorSearch α) :
    LoadInput α → Except String (VectorSearch α)
  | .nonArray => .error "TypeError: VectorSearch.loadDocs: expected an array of id,vector,norm"
  | .array ds => ds.foldlM (fun st d =>
      match d.vector with
      | none => .error "TypeError: Float32Array.from called on undefined"
      | some v => .ok ⟨st.docs ++ [⟨d.id, v, d.norm, d.meta⟩]⟩) s

/-- Reading `v[i]` from a `Float32Array`: a finite number in range,
`undefined` (which behaves as `NaN` in arithmetic) out of range. -/
def jsGet (v : List α) (i : Nat) : JsNum α :=
  match v[i]? with
  | some x => .fin x
  | none => .nan

/-- The dot-product loop of `search`:
`let dot = 0; for (let i = 0; i < q.length; i++) dot += q[i] * vector[i]`.
It iterates over exactly the query's indices. -/
def jsDot (q v : List α) : JsNum α :=
  (List.range q.length).foldl (fun acc i => acc.add ((jsGet q i).mul (jsGet v i))) (.fin 0)

/-- The stored `norm` as the number it denotes in arithmetic
(`undefined` behaves as `NaN`). -/
def normNum (n : Option α) : JsNum α :=
  match n with
  | some x => .fin x
  | none => .nan

/-- The score `search` computes for one entry:
`dot / (norm * qNorm)` where `qNorm = Math.hypot(...q)`. -/
def scoreOf (hypot : List α → α) (q : List α) (e : Entry α) : JsNum α :=
  (jsDot q e.vector).div ((normNum e.norm).mul (.fin (hypot q)))

/-- One element of the output of `search`:
`({ id, vector, norm, ...rest }) => ({ id, score, ...rest })` — the
vector and the norm are dropped, the extra fields are kept. -/
structure SearchResult (α : Type) where
  id : Option String
  score : JsNum α
  meta : List (String × String)
deriving DecidableEq

/-- The `.map(...)` stage of `search`: every stored entry is scored. -/
def scoredList (hypot : List α → α) (s : VectorSearch α) (q : List α) :
    List (SearchResult α) :=
  s.docs.map (fun e => ⟨e.id, scoreOf hypot q e, e.meta⟩)

/-- `SortCompare` with the comparator `(a, b) => b.score - a.score`:
`a` may stay before `b` unless the comparator result is strictly positive
(a `NaN` comparator result counts as `0`, that is, equal). -/
def sortLeB (a b : JsNum α) : Bool :=
  !(JsNum.sub b a).isPos

/-- The sort relation of `search` on results (compares scores only). -/
def resLe (a b : SearchResult α) : Prop :=
  sortLeB a.score b.score = true

instance : DecidableRel (resLe (α := α)) :=
  fun a b => inferInstanceAs (Decidable (_ = true))

/-- The `.sort((a, b) => b.score - a.score)` stage of `search`: the stable
sort of the scored entries by descending score. -/
def rank (hypot : List α → α) (s : VectorSearch α) (q : List α) :
    List (SearchResult α) :=
  (scoredList hypot s q).insertionSort resLe

/-- `Array.prototype.slice(0, k)`: for `0 ≤ k` the first `k` elements; a
negative `k` counts from the end (`length + k`, clamped at `0`). -/
def jsSlice {β : Type} (l : List β) (k : Int) : List β :=
  l.take (if k < 0 then ((l.length : Int) + k).toNat else k.toNat)

/-- `search(queryVec, k)` from `vector_search.js`: score every entry, sort
by descending score, `slice(0, k)`. -/
def VectorSearch.search (hypot : List α → α) (s : VectorSearch α)
    (q : List α) (k : Int) : List (SearchResult α) :=
  jsSlice (rank hypot s q) k

/-- Property access `doc?.[attr]` restricted to string-valued results, as
`textSearch` uses it: `id` is the only dedicated field that can hold a
string; `vector` and `norm` never do; every other name is looked up in
the open metadata bag. -/
def entryAttr (e : Entry α) (attr : String) : Option String :=
  if attr = "id" then e.id
  else if attr = "vector" ∨ attr = "norm" then none
  else e.meta.lookup attr

/-- Does one entry match `textSearch`'s test
`typeof value === "string" && value.trim().toLowerCase() === loweredText`?
(`lt` is the already-normalised search text.) -/
def matchesAttr (lt : String) (attr : String) (e : Entry α) : Bool :=
  match entryAttr e attr with
  | some v => v.trim.toLower == lt
  | none => false

/-- The `for (const doc of this.docs)` loop of `textSearch`. -/
def textSearchLoop (lt attr : String) : List (Entry α) → Option (Entry α)
  | [] => none
  | d :: ds =>
      match entryAttr d attr with
      | some v => if v.trim.toLower == lt then some d else textSearchLoop lt attr ds
      | none => textSearchLoop lt attr ds

/-- `textSearch(text, attr = "header")` from `vector_search.js`: linear
scan for the first entry whose `attr` value equals the trimmed, lowered
search text; `null` (here `none`) when nothing matches. -/
def VectorSearch.textSearch (s : VectorSearch α) (text : String)
    (attr : String := "header") : Option (Entry α) :=
  textSearchLoop (text.trim.toLower) attr s.docs

/-- One input document of `app.js`, as produced by `JSON.parse` (every
field may be missing). -/
structure Doc (α : Type) where
  header : Option String
  text_block : Option String
  text_blocks : Option (List String)
  vector : Option (List α)
  norm : Option α
  meta : List (String × String)
deriving DecidableEq

/-- The batching loop bounds of `app.js`:
`for (let i = 0; i < total; i += BATCH_SIZE) docs.slice(i, i + BATCH_SIZE)`.
For `B = 0` the JavaScript loop would not terminate; the model clamps the
step to `1` there, and every theorem assumes `1 ≤ B`. -/
def chunks {β : Type} (B : Nat) : List β → List (List β)
  | [] => []
  | d :: ds => (d :: ds).take (max B 1) :: chunks B ((d :: ds).drop (max B 1))
termination_by l => l.length
decreasing_by simp only [List.length_drop, List.length_cons]; omega

/-- The inner loop of one batch of `app.js`:
`for (let j = 0; j < chunk.length; j++) index.add(chunk[j].header, embeddings[j])`.
An out-of-range `embeddings[j]` would make `Float32Array.from` throw; the
Embedding Gateway contract (one vector per input text) rules that out, and
the model defaults it to `[]`. -/
def addBatch (hypot : List α → α) (s : VectorSearch α) (ch : List (Doc α))
    (embs : List (List α)) : VectorSearch α :=
  (List.range ch.length).foldl
    (fun st j => st.add hypot ((ch[j]?).bind Doc.header) ((embs[j]?).getD [])) s

/-- The embedding branch of the main indexing loop of `app.js`: slice the
documents into batches, derive the texts of a batch as
`chunk.map((d) => d.text_block)`, call the embedder once per batch, and
`add` each embedding under the document's `header`. -/
def buildIndex (hypot : List α → α) (embed : List (Option String) → List (List α))
    (B : Nat) (docs : List (Doc α)) : VectorSearch α :=
  (chunks B docs).foldl
    (fun st ch => addBatch hypot st ch (embed (ch.map Doc.text_block))) ⟨[]⟩

/-- Modelled from the spec: the embeddable-text derivation the spec
describes for the orchestrator — "concatenate `text_blocks` if a list is
given, else use `text_block` directly".  (`app.js` itself has no
`text_blocks` handling; this definition exists to be compared with the
code's derivation.) -/
def specEmbedText (d : Doc α) : Option String :=
  match d.text_blocks with
  | some bs => some (String.intercalate " " bs)
  | none => d.text_block

/-- The entries one batch contributes to the index. -/
def batchEntries (hypot : List α → α) (ch : List (Doc α)) (embs : List (List α)) :
    List (Entry α) :=
  (List.range ch.length).map
    (fun j => ⟨(ch[j]?).bind Doc.header, (embs[j]?).getD [],
               some (hypot ((embs[j]?).getD [])), []⟩)

/-- The sort relation of `search` lifted to results decorated with their
original position (the decoration is ignored, exactly as the code's
comparator ignores it). -/
def dlift (p q : Nat × SearchResult α) : Prop :=
  resLe p.2 q.2

instance : DecidableRel (dlift (α := α)) :=
  fun p q => inferInstanceAs (Decidable (resLe p.2 q.2))

/-- Stable-descending order on decorated results: strictly larger score
first, ties in original order. -/
def LexDesc (p q : Nat × SearchResult α) : Prop :=
  (q.2.score).val < (p.2.score).val ∨
    ((p.2.score).val = (q.2.score).val ∧ p.1 < q.1)

/-!  Rational arithmetic in Batteries is sealed against unfolding; opening it
up lets concrete witnesses evaluate by `decide`. -/
unseal Rat.mul Rat.add Rat.sub Rat.inv

/-! ### Basic facts about the JavaScript number model -/

theorem JsNum.nan_add (a : JsNum α) : (JsNum.nan).add a = .nan := by
  cases a <;> rfl

theorem JsNum.add_nan (a : JsNum α) : a.add .nan = .nan := by
  cases a <;> rfl

theorem JsNum.nan_mul (a : JsNum α) : (JsNum.nan).mul a = .nan := by
  cases a <;> rfl

theorem JsNum.mul_nan (a : JsNum α) : a.mul .nan = .nan := by
  cases a <;> rfl

theorem JsNum.nan_div (a : JsNum α) : (JsNum.nan).div a = .nan := by
  cases a <;> rfl

theorem JsNum.div_nan (a : JsNum α) : a.div .nan = .nan := by
  cases a <;> rfl

theorem JsNum.div_fin_zero_isFin (a : JsNum α) : (a.div (.fin 0)).isFin = false := by
  cases a with
  | fin x =>
      show (JsNum.div (.fin x) (.fin 0)).isFin = false
      simp only [JsNum.div, if_pos rfl]
      split_ifs <;> rfl
  | nan => rfl
  | inf =>
      show (JsNum.div .inf (.fin 0)).isFin = false
      simp only [JsNum.div]
      split_ifs <;> rfl
  | ninf =>
      show (JsNum.div .ninf (.fin 0)).isFin = false
      simp only [JsNum.div]
      split_ifs <;> rfl

theorem sortLeB_fin (x y : α) : sortLeB (JsNum.fin x) (JsNum.fin y) = decide (y ≤ x) := by
  have h1 : JsNum.sub (JsNum.fin y) (JsNum.fin x) = JsNum.fin (y - x) := rfl
  unfold sortLeB
  rw [h1]
  have h2 : (JsNum.fin (y - x)).isPos = decide (x < y) := by
    show decide (0 < y - x) = decide (x < y)
    rw [decide_eq_decide]
    exact sub_pos
  rw [h2]
  rcases le_or_lt y x with h | h
  · rw [decide_eq_false (not_lt.mpr h), decide_eq_true h]
    rfl
  · rw [decide_eq_true h, decide_eq_false (not_le.mpr h)]
    rfl

theorem resLe_fin {a b : SearchResult α} {x y : α}
    (ha : a.score = .fin x) (hb : b.score = .fin y) : resLe a b ↔ y ≤ x := by
  rw [resLe, ha, hb, sortLeB_fin]
  exact decide_eq_true_iff

/-! ### Score-level lemmas for `search` -/

theorem jsGet_of_lt {v : List α} {i : Nat} (h : i < v.length) :
    jsGet v i = .fin (v.get ⟨i, h⟩) := by
  rw [jsGet, List.getElem?_eq_getElem h]
  rfl

theorem jsGet_of_ge {v : List α} {i : Nat} (h : v.length ≤ i) : jsGet v i = .nan := by
  rw [jsGet, List.getElem?_eq_none h]

theorem dot_foldl_nan (q v : List α) :
    ∀ (n : Nat) (acc : JsNum α), n ≤ q.length → v.length < n →
      (List.range n).foldl (fun a i => a.add ((jsGet q i).mul (jsGet v i))) acc = .nan := by
  intro n
  induction n with
  | zero => intro acc _ hv; omega
  | succ n ih =>
      intro acc hn hv
      rw [List.range_succ, List.foldl_append, List.foldl_cons, List.foldl_nil]
      rcases Nat.lt_or_ge v.length n with h | h
      · rw [ih acc (by omega) h, JsNum.nan_add]
      · have hvn : v.length = n := by omega
        have hq : jsGet q n = .fin (q.get ⟨n, by omega⟩) := jsGet_of_lt (by omega)
        have hv' : jsGet v n = .nan := jsGet_of_ge (by omega)
        rw [hq, hv']
        show JsNum.add _ ((JsNum.fin _).mul .nan) = .nan
        rw [JsNum.mul_nan, JsNum.add_nan]

theorem jsDot_nan {q v : List α} (h : v.length < q.length) : jsDot q v = .nan :=
  dot_foldl_nan q v q.length (.fin 0) le_rfl h

theorem jsDot_eq_take (q v : List α) : jsDot q v = jsDot q (v.take q.length) := by
  unfold jsDot
  apply List.foldl_ext
  intro acc i hi
  have hi' : i < q.length := List.mem_range.mp hi
  have hg : jsGet (v.take q.length) i = jsGet v i := by
    rw [jsGet, jsGet, List.getElem?_take, if_pos hi']
  rw [hg]

/-- Claim C10: `search` performs no dimensionality check: the dot-product
loop iterates over exactly the query's indices, so an entry whose vector
is shorter than the query gets score `NaN` (the out-of-range components
read as `undefined`), and components of a stored vector beyond the
query's length never affect its score. -/
theorem search_no_dim_check (hypot : List α → α) (q : List α) (e : Entry α) :
    (e.vector.length < q.length → scoreOf hypot q e = JsNum.nan)
    ∧ scoreOf hypot q e = scoreOf hypot q ⟨e.id, e.vector.take q.length, e.norm, e.meta⟩ := by
  constructor
  · intro h
    unfold scoreOf
    rw [jsDot_nan h, JsNum.nan_div]
  · unfold scoreOf
    rw [jsDot_eq_take]

/-- Witness for C10 at a concrete input: the entry's two-component vector
is shorter than the three-component query, so its score is `NaN`; and its
score coincides with the score of the entry truncated to the query's
length. -/
theorem search_no_dim_check_witness :
    scoreOf (fun _ => (1 : ℚ)) [1, 2, 3] ⟨some "a", [1, 2], some 1, []⟩ = JsNum.nan
    ∧ scoreOf (fun _ => (1 : ℚ)) [1, 2, 3] ⟨some "a", [1, 2], some 1, []⟩
        = scoreOf (fun _ => (1 : ℚ)) [1, 2, 3]
            ⟨some "a", [1, 2].take (List.length [(1 : ℚ), 2, 3]), some 1, []⟩ :=
  ⟨(search_no_dim_check (fun _ => (1 : ℚ)) [1, 2, 3] ⟨some "a", [1, 2], some 1, []⟩).1
      (by decide),
   (search_no_dim_check (fun _ => (1 : ℚ)) [1, 2, 3] ⟨some "a", [1, 2], some 1, []⟩).2⟩

/-- Counterexample to claim C2 as stated: on the index holding the single
entry `id "a"`, vector `[0]`, cached norm `0` (the true norm of `[0]`),
and the query `[1]`, the score the code computes is `NaN` — not `0` — and
this `NaN` enters the returned ordering. -/
theorem search_zero_norm_gives_nan :
    scoreOf (fun v => if v = [(1 : ℚ)] then 1 else 0) [1] ⟨some "a", [0], some 0, []⟩
      = JsNum.nan
    ∧ JsNum.nan ≠ (JsNum.fin 0 : JsNum ℚ)
    ∧ VectorSearch.search (fun v => if v = [(1 : ℚ)] then 1 else 0)
        ⟨[⟨some "a", [0], some 0, []⟩]⟩ [1] 10
        = [⟨some "a", JsNum.nan, []⟩] := by
  refine ⟨by decide, by decide, by decide⟩

/-- Claim C2 (amended): whenever the query's computed norm is zero, or a
stored entry's cached norm is zero or missing, the score the code assigns
to that entry is non-finite (`NaN` or a signed infinity) — the division
by zero is not special-cased to `0`.  No error is raised: `search` is a
total function of the state and the query. -/
theorem search_zero_norm_score_nonfinite (hypot : List α → α) (q : List α) (e : Entry α)
    (h : hypot q = 0 ∨ e.norm = some 0 ∨ e.norm = none) :
    (scoreOf hypot q e).isFin = false := by
  have hden : (normNum e.norm).mul (.fin (hypot q)) = .fin 0
      ∨ (normNum e.norm).mul (.fin (hypot q)) = .nan := by
    cases hn : e.norm with
    | none =>
        right
        show (JsNum.nan).mul _ = _
        exact JsNum.nan_mul _
    | some n =>
        left
        show (JsNum.fin n).mul (.fin (hypot q)) = .fin 0
        rcases h with h | h | h
        · rw [h]
          show JsNum.fin (n * 0) = JsNum.fin 0
          rw [mul_zero]
        · rw [hn] at h
          obtain rfl : n = 0 := Option.some.inj h
          show JsNum.fin (0 * hypot q) = JsNum.fin 0
          rw [zero_mul]
        · rw [hn] at h; cases h
  unfold scoreOf
  rcases hden with hd | hd <;> rw [hd]
  · exact JsNum.div_fin_zero_isFin _
  · rw [JsNum.div_nan]; rfl

/-- Witness for the amended C2 at a concrete input: an entry loaded with
cached norm `0` gets a non-finite score. -/
theorem search_zero_norm_score_nonfinite_witness :
    (scoreOf (fun _ => (1 : ℚ)) [1] ⟨some "b", [3], some 0, []⟩).isFin = false :=
  search_zero_norm_score_nonfinite (fun _ => (1 : ℚ)) [1] ⟨some "b", [3], some 0, []⟩
    (Or.inr (Or.inl rfl))

/-- Claim C5: a single insert appends exactly one new entry, and its
cached norm is the Euclidean norm of the stored vector: `Math.hypot`
computes the square root of the sum of the squares of its arguments,
idealised here as the exact real square root (the claim's
"floating-point tolerance" is exact equality in the real-number model). -/
theorem add_norm_eq_sqrt_sum_sq (s : VectorSearch ℝ) (i : Option String) (v : List ℝ) :
    (s.add (fun w => Real.sqrt ((w.map (fun x => x ^ 2)).sum)) i v).docs
      = s.docs ++ [⟨i, v, some (Real.sqrt ((v.map (fun x => x ^ 2)).sum)), []⟩]
    ∧ 0 ≤ Real.sqrt ((v.map (fun x => x ^ 2)).sum)
    ∧ (Real.sqrt ((v.map (fun x => x ^ 2)).sum)) ^ 2 = (v.map (fun x => x ^ 2)).sum := by
  refine ⟨rfl, Real.sqrt_nonneg _, Real.sq_sqrt ?_⟩
  apply List.sum_nonneg
  intro x hx
  obtain ⟨y, _, rfl⟩ := List.mem_map.mp hx
  exact sq_nonneg y

/-- Counterexample to claim C7 as stated: after storing a one-dimensional
vector, `add` happily stores a two-dimensional one (no error, no padding,
no truncation), and `loadDocs` likewise accepts entries of differing
dimensionalities, so one index holds entries of different `D`. -/
theorem mixed_dims_stored :
    (((VectorSearch.mk ([] : List (Entry ℚ))).add (fun _ => 1) (some "a") [1]).add
        (fun _ => 1) (some "b") [1, 2]).docs.map (fun e => e.vector.length) = [1, 2]
    ∧ (VectorSearch.mk ([] : List (Entry ℚ))).loadDocs
        (.array [⟨some "a", some [1], some 1, []⟩, ⟨some "b", some [1, 2], some 1, []⟩])
        = .ok ⟨[⟨some "a", [1], some 1, []⟩, ⟨some "b", [1, 2], some 1, []⟩]⟩ :=
  ⟨rfl, rfl⟩

/-! ### `loadDocs` helper lemmas -/

/-- The entry `loadDocs` builds from one raw document (`getD []` is never
reached when the vector is present). -/
def RawDoc.toEntry (d : RawDoc α) : Entry α :=
  ⟨d.id, (d.vector).getD [], d.norm, d.meta⟩


theorem loadDocs_array (s : VectorSearch α) (ds : List (RawDoc α)) :
    s.loadDocs (.array ds) = ds.foldlM (fun st d =>
      match d.vector with
      | none => Except.error "TypeError: Float32Array.from called on undefined"
      | some v => Except.ok ⟨st.docs ++ [⟨d.id, v, d.norm, d.meta⟩]⟩) s := rfl

theorem loadDocs_cons (s : VectorSearch α) (d : RawDoc α) (t : List (RawDoc α)) {v : List α}
    (hv : d.vector = some v) :
    s.loadDocs (.array (d :: t))
      = (VectorSearch.mk (s.docs ++ [⟨d.id, v, d.norm, d.meta⟩])).loadDocs (.array t) := by
  rw [loadDocs_array, List.foldlM_cons, hv]
  rfl

theorem loadDocs_cons_err (s : VectorSearch α) (d : RawDoc α) (t : List (RawDoc α))
    (hv : d.vector = none) :
    s.loadDocs (.array (d :: t))
      = .error "TypeError: Float32Array.from called on undefined" := by
  rw [loadDocs_array, List.foldlM_cons, hv]
  rfl

theorem loadDocs_ok (ds : List (RawDoc α)) (h : ∀ d ∈ ds, d.vector ≠ none) :
    ∀ s : VectorSearch α, s.loadDocs (.array ds) = .ok ⟨s.docs ++ ds.map RawDoc.toEntry⟩ := by
  induction ds with
  | nil =>
      intro s
      show Except.ok s = _
      rw [List.map_nil, List.append_nil]
  | cons d t ih =>
      intro s
      have hd : d.vector ≠ none := h d (List.mem_cons_self d t)
      obtain ⟨v, hv⟩ := Option.ne_none_iff_exists'.mp hd
      have hte : d.toEntry = ⟨d.id, v, d.norm, d.meta⟩ := by
        unfold RawDoc.toEntry
        rw [hv]
        rfl
      rw [loadDocs_cons s d t hv, ih (fun x hx => h x (List.mem_cons_of_mem _ hx))]
      rw [List.map_cons, hte, List.append_assoc]
      rfl

theorem loadDocs_err (ds : List (RawDoc α)) (h : ∃ d ∈ ds, d.vector = none) :
    ∀ s : VectorSearch α, ∃ msg, s.loadDocs (.array ds) = .error msg := by
  induction ds with
  | nil => simp at h
  | cons d t ih =>
      intro s
      cases hv : d.vector with
      | none =>
          exact ⟨"TypeError: Float32Array.from called on undefined",
                 loadDocs_cons_err s d t hv⟩
      | some v =>
          have ht : ∃ x ∈ t, x.vector = none := by
            rcases h with ⟨x, hx, hxn⟩
            rcases List.mem_cons.mp hx with rfl | hxt
            · rw [hv] at hxn; cases hxn
            · exact ⟨x, hxt, hxn⟩
          obtain ⟨msg, hm⟩ :=
            ih ht (VectorSearch.mk (s.docs ++ [⟨d.id, v, d.norm, d.meta⟩]))
          refine ⟨msg, ?_⟩
          rw [loadDocs_cons s d t hv]
          exact hm

/-- Counterexample to claim C6 as stated: an entry with no `id` at all is
not rejected — `loadDocs` stores it (with `undefined` id) and succeeds. -/
theorem loadDocs_missing_id_accepted :
    (VectorSearch.mk ([] : List (Entry ℚ))).loadDocs (.array [⟨none, some [1], some 1, []⟩])
      = .ok ⟨[⟨none, [1], some 1, []⟩]⟩ := rfl

/-- Claim C6 (amended): `loadDocs` succeeds exactly when every element of
the array carries a `vector` (a missing `vector` makes
`Float32Array.from` throw a `TypeError`, and a non-array argument is
rejected up front); a missing `id` or `norm` is *not* checked.  On
success the caller-supplied vectors, norms and extra fields are stored
as-is, with no recomputation. -/
theorem loadDocs_schema (s : VectorSearch α) (ds : List (RawDoc α)) :
    (s.loadDocs (.array ds)).isOk = ds.all (fun d => d.vector.isSome)
    ∧ ((∀ d ∈ ds, d.vector ≠ none) →
        s.loadDocs (.array ds) = .ok ⟨s.docs ++ ds.map RawDoc.toEntry⟩)
    ∧ (s.loadDocs (α := α) .nonArray).isOk = false := by
  refine ⟨?_, fun h => loadDocs_ok ds h s, rfl⟩
  cases hall : ds.all (fun d => d.vector.isSome) with
  | true =>
      have h : ∀ d ∈ ds, d.vector ≠ none := by
        intro d hd
        exact Option.isSome_iff_ne_none.mp (List.all_eq_true.mp hall d hd)
      rw [loadDocs_ok ds h s]
      rfl
  | false =>
      have h : ∃ d ∈ ds, d.vector = none := by
        obtain ⟨d, hd, hdv⟩ := List.all_eq_false.mp hall
        exact ⟨d, hd, Option.not_isSome_iff_eq_none.mp hdv⟩
      obtain ⟨msg, hm⟩ := loadDocs_err ds h s
      rw [hm]
      rfl

/-- Witness for the amended C6 at a concrete input: a fully-formed entry
is stored exactly as supplied (vector, norm and the extra field `k`). -/
theorem loadDocs_schema_witness :
    ((VectorSearch.mk ([] : List (Entry ℚ))).loadDocs
        (.array [⟨some "a", some [1, 2], some 3, [("k", "v")]⟩])).isOk
      = [(⟨some "a", some [1, 2], some 3, [("k", "v")]⟩ : RawDoc ℚ)].all
          (fun d => d.vector.isSome)
    ∧ (VectorSearch.mk ([] : List (Entry ℚ))).loadDocs
        (.array [⟨some "a", some [1, 2], some 3, [("k", "v")]⟩])
      = .ok ⟨[⟨some "a", [1, 2], some 3, [("k", "v")]⟩]⟩
    ∧ ((VectorSearch.mk ([] : List (Entry ℚ))).loadDocs .nonArray).isOk = false :=
  ⟨(loadDocs_schema (VectorSearch.mk []) [⟨some "a", some [1, 2], some 3, [("k", "v")]⟩]).1,
   (loadDocs_schema (VectorSearch.mk []) [⟨some "a", some [1, 2], some 3, [("k", "v")]⟩]).2.1
      (by decide),
   (loadDocs_schema (VectorSearch.mk []) [⟨some "a", some [1, 2], some 3, [("k", "v")]⟩]).2.2⟩

/-- Claim C7 (amended): no dimensionality check exists on either
insertion path: `add` appends any vector unchanged (neither padded nor
truncated, no error), and `loadDocs` accepts entries of arbitrary — even
mutually different — dimensionalities, so entries with different `D` may
coexist in one index. -/
theorem insert_no_dim_check (hypot : List α → α) (s : VectorSearch α) (i : Option String)
    (v : List α) (ds : List (RawDoc α)) (h : ∀ d ∈ ds, d.vector ≠ none) :
    (s.add hypot i v).docs = s.docs ++ [⟨i, v, some (hypot v), []⟩]
    ∧ s.loadDocs (.array ds) = .ok ⟨s.docs ++ ds.map RawDoc.toEntry⟩ :=
  ⟨rfl, loadDocs_ok ds h s⟩

/-- Witness for the amended C7 at a concrete input with three different
dimensionalities in play. -/
theorem insert_no_dim_check_witness :
    ((VectorSearch.mk [(⟨some "z", [5, 6, 7], some 1, []⟩ : Entry ℚ)]).add
        (fun _ => 1) (some "x") [1, 2]).docs
      = [⟨some "z", [5, 6, 7], some 1, []⟩] ++ [⟨some "x", [1, 2], some 1, []⟩]
    ∧ (VectorSearch.mk [(⟨some "z", [5, 6, 7], some 1, []⟩ : Entry ℚ)]).loadDocs
        (.array [⟨some "b", some [7], some 1, []⟩])
      = .ok ⟨[⟨some "z", [5, 6, 7], some 1, []⟩]
              ++ [⟨some "b", some [7] |>.getD [], some 1, []⟩]⟩ := by
  have h := insert_no_dim_check (fun _ => (1 : ℚ))
      (VectorSearch.mk [(⟨some "z", [5, 6, 7], some 1, []⟩ : Entry ℚ)]) (some "x") [1, 2]
      [⟨some "b", some [7], some 1, []⟩] (by decide)
  exact ⟨h.1, h.2⟩

/-! ### `textSearch` -/

theorem textSearchLoop_eq_find (lt attr : String) (l : List (Entry α)) :
    textSearchLoop lt attr l = l.find? (matchesAttr lt attr) := by
  induction l with
  | nil => rfl
  | cons d ds ih =>
      rw [List.find?_cons]
      show (match entryAttr d attr with
            | some v => if v.trim.toLower == lt then some d else textSearchLoop lt attr ds
            | none => textSearchLoop lt attr ds) = _
      cases ha : entryAttr d attr with
      | none =>
          have hm : matchesAttr lt attr d = false := by
            unfold matchesAttr
            rw [ha]
          rw [hm]
          simpa using ih
      | some v =>
          have hm : matchesAttr lt attr d = (v.trim.toLower == lt) := by
            unfold matchesAttr
            rw [ha]
          rw [hm]
          cases hb : v.trim.toLower == lt with
          | true => simp [hb]
          | false => simpa [hb] using ih

theorem find_eq_head_dropWhile {β : Type} (p : β → Bool) (l : List β) :
    l.find? p = (l.dropWhile (fun x => !(p x))).head? := by
  induction l with
  | nil => rfl
  | cons a l ih =>
      rw [List.find?_cons, List.dropWhile_cons]
      cases h : p a with
      | true => simp [h]
      | false => simpa [h] using ih

theorem find_isNone_eq_all {β : Type} (p : β → Bool) (l : List β) :
    (l.find? p).isNone = l.all (fun x => !(p x)) := by
  induction l with
  | nil => rfl
  | cons a l ih =>
      rw [List.find?_cons, List.all_cons]
      cases h : p a with
      | true => simp [h]
      | false => simpa [h] using ih

/-- Claim C9: `textSearch` returns the first entry in insertion order
whose named attribute equals the search text ignoring letter case and
leading/trailing whitespace (both sides are trimmed and lowered before
comparison), and returns the explicit not-found value `none` — never an
error — when no entry matches: it equals `find?` of the match predicate,
equivalently the head of the list that remains after dropping the
non-matching prefix, and it is `none` exactly when every entry fails the
match. -/
theorem textSearch_first_match (s : VectorSearch α) (text attr : String) :
    s.textSearch text attr = s.docs.find? (matchesAttr (text.trim.toLower) attr)
    ∧ s.textSearch text attr
        = (s.docs.dropWhile (fun e => !(matchesAttr (text.trim.toLower) attr e))).head?
    ∧ (s.textSearch text attr).isNone
        = s.docs.all (fun e => !(matchesAttr (text.trim.toLower) attr e)) := by
  refine ⟨textSearchLoop_eq_find _ _ _, ?_, ?_⟩
  · rw [VectorSearch.textSearch, textSearchLoop_eq_find, find_eq_head_dropWhile]
  · rw [VectorSearch.textSearch, textSearchLoop_eq_find, find_isNone_eq_all]

/-! ### `slice(0, k)` behaviour of `search` -/

theorem rank_length (hypot : List α → α) (s : VectorSearch α) (q : List α) :
    (rank hypot s q).length = s.docs.length := by
  rw [rank, List.length_insertionSort, scoredList, List.length_map]

/-- Counterexample to claim C4 as stated: with two stored entries and
`k = -1`, `slice(0, -1)` keeps everything but the last element, so
`search` returns one result — not the empty sequence the claim promises
for every `k ≤ 0`. -/
theorem search_negative_k_not_empty :
    VectorSearch.search (fun _ => (1 : ℚ))
        ⟨[⟨some "a", [1], some 1, []⟩, ⟨some "b", [2], some 2, []⟩]⟩ [1] (-1)
      = [⟨some "a", JsNum.fin 1, []⟩]
    ∧ VectorSearch.search (fun _ => (1 : ℚ))
        ⟨[⟨some "a", [1], some 1, []⟩, ⟨some "b", [2], some 2, []⟩]⟩ [1] (-1)
      ≠ [] := by
  refine ⟨by decide, by decide⟩

/-- Claim C4 (amended): `search` with `k = 0` returns the empty sequence,
but for `k < 0` it follows `Array.slice(0, k)` semantics: it returns the
sorted sequence with its last `|k|` entries removed (everything, and
hence the empty sequence, only when `|k|` reaches the number of stored
entries). -/
theorem search_nonpos_k (hypot : List α → α) (s : VectorSearch α) (q : List α) (k : Int)
    (hk : k ≤ 0) :
    VectorSearch.search hypot s q k
      = if k = 0 then []
        else (rank hypot s q).take ((s.docs.length : Int) + k).toNat := by
  rcases eq_or_lt_of_le hk with h | h
  · rw [if_pos h]
    subst h
    show jsSlice (rank hypot s q) 0 = []
    rw [jsSlice, if_neg (lt_irrefl 0), Int.toNat_zero, List.take_zero]
  · rw [if_neg (by omega)]
    show jsSlice (rank hypot s q) k = _
    rw [jsSlice, if_pos h, rank_length]

/-- Witness for the amended C4 at a concrete input (`k = -2` on a
two-entry index). -/
theorem search_nonpos_k_witness :
    VectorSearch.search (fun _ => (1 : ℚ))
        ⟨[⟨some "a", [1], some 1, []⟩, ⟨some "b", [2], some 2, []⟩]⟩ [1] (-2)
      = if (-2 : Int) = 0 then []
        else (rank (fun _ => (1 : ℚ))
            ⟨[⟨some "a", [1], some 1, []⟩, ⟨some "b", [2], some 2, []⟩]⟩ [1]).take
          (((VectorSearch.mk [⟨some "a", [1], some 1, []⟩,
              ⟨some "b", [2], some 2, []⟩]).docs.length : Int) + (-2)).toNat :=
  search_nonpos_k (fun _ => (1 : ℚ))
    ⟨[⟨some "a", [1], some 1, []⟩, ⟨some "b", [2], some 2, []⟩]⟩ [1] (-2) (by decide)

/-! ### The sorted ranking: descending, stable, truncated (claim C1) -/

theorem JsNum.isFin_iff {n : JsNum α} : n.isFin = true ↔ ∃ x, n = fin x := by
  cases n <;> simp [JsNum.isFin]

theorem JsNum.val_fin (x : α) : (JsNum.fin x).val = x := rfl

theorem dlift_fin {p q : Nat × SearchResult α} {x y : α}
    (hp : p.2.score = .fin x) (hq : q.2.score = .fin y) : dlift p q ↔ y ≤ x := by
  show resLe p.2 q.2 ↔ y ≤ x
  exact resLe_fin hp hq

theorem lexDesc_of_lt {p q : Nat × SearchResult α} (h : q.2.score.val < p.2.score.val) :
    LexDesc p q := Or.inl h

theorem lexDesc_of_eq {p q : Nat × SearchResult α} (h : p.2.score.val = q.2.score.val)
    (hi : p.1 < q.1) : LexDesc p q := Or.inr ⟨h, hi⟩

theorem orderedInsert_lexDesc (x : Nat × SearchResult α) (hfx : x.2.score.isFin = true) :
    ∀ l : List (Nat × SearchResult α), (∀ p ∈ l, p.2.score.isFin = true) →
      (∀ p ∈ l, x.1 < p.1) → l.Pairwise LexDesc →
      (l.orderedInsert dlift x).Pairwise LexDesc := by
  intro l
  induction l with
  | nil => intro _ _ _; exact List.pairwise_singleton _ _
  | cons b t ih =>
      intro hfl hix hp
      obtain ⟨a, hax⟩ := JsNum.isFin_iff.mp hfx
      obtain ⟨c, hbc⟩ := JsNum.isFin_iff.mp (hfl b (List.mem_cons_self b t))
      have hvx : x.2.score.val = a := by rw [hax, JsNum.val_fin]
      have hvb : b.2.score.val = c := by rw [hbc, JsNum.val_fin]
      rw [List.orderedInsert]
      by_cases hxb : dlift x b
      · rw [if_pos hxb]
        have hca : c ≤ a := (dlift_fin hax hbc).mp hxb
        rw [List.pairwise_cons]
        refine ⟨?_, hp⟩
        intro q hq
        rcases List.mem_cons.mp hq with rfl | hqt
        · rcases lt_or_eq_of_le hca with hlt | heq
          · exact lexDesc_of_lt (by rw [hvx, hvb]; exact hlt)
          · exact lexDesc_of_eq (by rw [hvx, hvb]; exact heq.symm)
              (hix q (List.mem_cons_self q t))
        · have hbq : LexDesc b q := (List.pairwise_cons.mp hp).1 q hqt
          rcases hbq with hlt | ⟨heq, _⟩
          · refine lexDesc_of_lt ?_
            rw [hvx]
            rw [hvb] at hlt
            exact lt_of_lt_of_le hlt hca
          · rcases lt_or_eq_of_le hca with hlt2 | heq2
            · refine lexDesc_of_lt ?_
              rw [hvx, ← heq, hvb]
              exact hlt2
            · refine lexDesc_of_eq ?_ (hix q (List.mem_cons_of_mem _ hqt))
              rw [hvx, ← heq, hvb]
              exact heq2.symm
      · rw [if_neg hxb]
        have hac : a < c := not_le.mp (fun hca => hxb ((dlift_fin hax hbc).mpr hca))
        rw [List.pairwise_cons]
        constructor
        · intro q hq
          rcases (List.mem_orderedInsert _).mp hq with rfl | hqt
          · exact lexDesc_of_lt (by rw [hvx, hvb]; exact hac)
          · exact (List.pairwise_cons.mp hp).1 q hqt
        · exact ih (fun p hp' => hfl p (List.mem_cons_of_mem _ hp'))
            (fun p hp' => hix p (List.mem_cons_of_mem _ hp'))
            (List.pairwise_cons.mp hp).2

theorem insertionSort_lexDesc :
    ∀ l : List (Nat × SearchResult α), (∀ p ∈ l, p.2.score.isFin = true) →
      l.Pairwise (fun p q => p.1 < q.1) →
      (l.insertionSort dlift).Pairwise LexDesc := by
  intro l
  induction l with
  | nil => intro _ _; exact List.Pairwise.nil
  | cons x t ih =>
      intro hfl hix
      rw [List.insertionSort]
      apply orderedInsert_lexDesc x (hfl x (List.mem_cons_self x t))
      · intro p hp
        exact hfl p (List.mem_cons_of_mem _ ((List.mem_insertionSort _).mp hp))
      · intro p hp
        exact (List.pairwise_cons.mp hix).1 p ((List.mem_insertionSort _).mp hp)
      · exact ih (fun p hp => hfl p (List.mem_cons_of_mem _ hp))
          (List.pairwise_cons.mp hix).2

theorem rank_eq_enum_sort (hypot : List α → α) (s : VectorSearch α) (q : List α) :
    rank hypot s q
      = (((scoredList hypot s q).enum).insertionSort dlift).map Prod.snd := by
  have h := List.map_insertionSort (r := dlift) (s := resLe) Prod.snd
      ((scoredList hypot s q).enum) (fun a _ b _ => Iff.rfl)
  rw [List.enum_map_snd] at h
  rw [rank, h]

theorem enum_pairwise_lt {β : Type} (l : List β) :
    l.enum.Pairwise (fun p q => p.1 < q.1) := by
  have h := List.pairwise_lt_range l.length
  rw [← List.enum_map_fst l] at h
  exact List.pairwise_map.mp h

theorem scored_isFin (hypot : List α → α) (s : VectorSearch α) (q : List α)
    (hfin : ∀ e ∈ s.docs, (scoreOf hypot q e).isFin = true) :
    ∀ p ∈ (scoredList hypot s q).enum, p.2.score.isFin = true := by
  intro p hp
  have hsnd : p.2 ∈ scoredList hypot s q := by
    rw [← List.enum_map_snd (scoredList hypot s q)]
    exact List.mem_map_of_mem Prod.snd hp
  obtain ⟨e, he, hrfl⟩ := List.mem_map.mp hsnd
  rw [← hrfl]
  exact hfin e he

theorem rank_pairwise_desc (hypot : List α → α) (s : VectorSearch α) (q : List α)
    (hfin : ∀ e ∈ s.docs, (scoreOf hypot q e).isFin = true) :
    (rank hypot s q).Pairwise (fun a b => b.score.val ≤ a.score.val) := by
  rw [rank_eq_enum_sort, List.pairwise_map]
  apply List.Pairwise.imp ?_
      (insertionSort_lexDesc _ (scored_isFin hypot s q hfin) (enum_pairwise_lt _))
  intro p q h
  rcases h with hlt | ⟨heq, _⟩
  · exact le_of_lt hlt
  · exact le_of_eq heq.symm

/-- Claim C1: for comparable (finite) scores — the zero-norm and
short-vector `NaN` situations are the subject of C2 and C10 — and
nonnegative `k`, `search` returns the scored entries in descending order
of score with ties kept in insertion order, truncated to the first `k`:
the output is the `k`-prefix of the full ranking; its length is
`min k N` (so all entries are returned when the index holds fewer than
`k`); the full ranking is a permutation of the scored entries with
descending scores; and the ranking is the image of the stable sort of the
position-decorated scored list, which is strictly ordered by score
descending then original position ascending — equal scores keep their
insertion order. -/
theorem search_sorted_stable_trunc (hypot : List α → α) (s : VectorSearch α)
    (q : List α) (k : Int) (hk : 0 ≤ k)
    (hfin : ∀ e ∈ s.docs, (scoreOf hypot q e).isFin = true) :
    VectorSearch.search hypot s q k = (rank hypot s q).take k.toNat
    ∧ (VectorSearch.search hypot s q k).length = min k.toNat s.docs.length
    ∧ (rank hypot s q).Perm (scoredList hypot s q)
    ∧ (rank hypot s q).Pairwise (fun a b => b.score.val ≤ a.score.val)
    ∧ rank hypot s q = (((scoredList hypot s q).enum).insertionSort dlift).map Prod.snd
    ∧ (((scoredList hypot s q).enum).insertionSort dlift).Pairwise LexDesc := by
  have htake : VectorSearch.search hypot s q k = (rank hypot s q).take k.toNat := by
    show jsSlice _ _ = _
    rw [jsSlice, if_neg (by omega)]
  refine ⟨htake, ?_, List.perm_insertionSort resLe _, rank_pairwise_desc hypot s q hfin,
      rank_eq_enum_sort hypot s q,
      insertionSort_lexDesc _ (scored_isFin hypot s q hfin) (enum_pairwise_lt _)⟩
  rw [htake, List.length_take, rank_length]

/-- Witness for C1 at a concrete two-entry index whose two scores tie. -/
theorem search_sorted_stable_trunc_witness :
    (VectorSearch.search (fun _ => (1 : ℚ))
        ⟨[⟨some "a", [1], some 1, []⟩, ⟨some "b", [2], some 2, []⟩]⟩ [1] 1).length
      = min (1 : Int).toNat
          (VectorSearch.mk
            [(⟨some "a", [1], some 1, []⟩ : Entry ℚ),
             ⟨some "b", [2], some 2, []⟩]).docs.length :=
  (search_sorted_stable_trunc (fun _ => (1 : ℚ))
      ⟨[⟨some "a", [1], some 1, []⟩, ⟨some "b", [2], some 2, []⟩]⟩ [1] 1
      (by decide) (by decide)).2.1

/-! ### The batching orchestrator of `app.js` (claims C3 and C8) -/

theorem chunks_flatten {β : Type} (B : Nat) :
    ∀ l : List β, (chunks B l).flatten = l := by
  have key : ∀ (n : Nat) (l : List β), l.length ≤ n → (chunks B l).flatten = l := by
    intro n
    induction n with
    | zero =>
        intro l hl
        rw [List.length_eq_zero.mp (Nat.le_zero.mp hl)]
        simp [chunks]
    | succ n ih =>
        intro l hl
        cases l with
        | nil => simp [chunks]
        | cons d ds =>
            have hmax : 1 ≤ max B 1 := le_max_right _ _
            have hd : ((d :: ds).drop (max B 1)).length ≤ n := by
              rw [List.length_drop, List.length_cons]
              rw [List.length_cons] at hl
              omega
            rw [chunks, List.flatten_cons, ih _ hd, List.take_append_drop]
  intro l
  exact key l.length l le_rfl

theorem add_docs (hypot : List α → α) (s : VectorSearch α) (i : Option String)
    (v : List α) :
    (s.add hypot i v).docs = s.docs ++ [⟨i, v, some (hypot v), []⟩] := rfl

theorem foldl_add_range (hypot : List α → α) (fi : Nat → Option String)
    (fv : Nat → List α) :
    ∀ (n : Nat) (s : VectorSearch α),
      ((List.range n).foldl (fun st j => st.add hypot (fi j) (fv j)) s).docs
        = s.docs ++ (List.range n).map (fun j => ⟨fi j, fv j, some (hypot (fv j)), []⟩) := by
  intro n
  induction n with
  | zero => intro s; simp
  | succ n ih =>
      intro s
      rw [List.range_succ, List.foldl_append, List.foldl_cons, List.foldl_nil,
          List.map_append, List.map_cons, List.map_nil, add_docs, ih s,
          List.append_assoc]

theorem addBatch_docs (hypot : List α → α) (s : VectorSearch α) (ch : List (Doc α))
    (embs : List (List α)) :
    (addBatch hypot s ch embs).docs = s.docs ++ batchEntries hypot ch embs :=
  foldl_add_range hypot _ _ ch.length s

theorem foldl_addBatch_docs (hypot : List α → α)
    (embed : List (Option String) → List (List α)) :
    ∀ (cs : List (List (Doc α))) (s : VectorSearch α),
      (cs.foldl (fun st ch => addBatch hypot st ch (embed (ch.map Doc.text_block))) s).docs
        = s.docs ++ (cs.map (fun ch =>
            batchEntries hypot ch (embed (ch.map Doc.text_block)))).flatten := by
  intro cs
  induction cs with
  | nil => intro s; simp
  | cons ch t ih =>
      intro s
      rw [List.foldl_cons, ih, addBatch_docs, List.map_cons, List.flatten_cons,
          List.append_assoc]

theorem buildIndex_docs_eq (hypot : List α → α)
    (embed : List (Option String) → List (List α)) (B : Nat) (docs : List (Doc α)) :
    (buildIndex hypot embed B docs).docs
      = ((chunks B docs).map (fun ch =>
          batchEntries hypot ch (embed (ch.map Doc.text_block)))).flatten := by
  rw [buildIndex, foldl_addBatch_docs]
  rfl

theorem range_map_header (ch : List (Doc α)) :
    (List.range ch.length).map (fun j => (ch[j]?).bind Doc.header) = ch.map Doc.header := by
  induction ch with
  | nil => rfl
  | cons d t ih =>
      rw [List.length_cons, List.range_succ_eq_map, List.map_cons, List.map_map,
          List.map_cons]
      congr 1
      · rw [List.getElem?_cons_zero]
        rfl
      · rw [← ih]
        apply List.map_congr_left
        intro j _
        show ((d :: t)[j + 1]?).bind Doc.header = (t[j]?).bind Doc.header
        rw [List.getElem?_cons_succ]

theorem batchEntries_ids (hypot : List α → α) (ch : List (Doc α)) (embs : List (List α)) :
    (batchEntries hypot ch embs).map Entry.id = ch.map Doc.header := by
  rw [batchEntries, List.map_map]
  show (List.range ch.length).map (fun j => (ch[j]?).bind Doc.header) = ch.map Doc.header
  exact range_map_header ch

/-- Claim C3: for every batch size `B ≥ 1` and every embedder satisfying
the Embedding Gateway contract (one vector per input text), building the
index over a document collection of size `N` yields exactly `N` entries,
inserted under the documents' headers in the original document order,
regardless of how `B` divides `N`. -/
theorem buildIndex_order (hypot : List α → α)
    (embed : List (Option String) → List (List α)) (B : Nat) (docs : List (Doc α))
    (hB : 1 ≤ B) (hembed : ∀ ts, (embed ts).length = ts.length) :
    (buildIndex hypot embed B docs).docs.length = docs.length
    ∧ (buildIndex hypot embed B docs).docs.map Entry.id = docs.map Doc.header := by
  have hids : (buildIndex hypot embed B docs).docs.map Entry.id = docs.map Doc.header := by
    rw [buildIndex_docs_eq, List.map_flatten, List.map_map]
    have hcong := List.map_congr_left (l := chunks B docs)
        (f := List.map Entry.id ∘ fun ch =>
          batchEntries hypot ch (embed (ch.map Doc.text_block)))
        (g := fun ch => ch.map Doc.header)
        (fun ch _ => batchEntries_ids hypot ch (embed (ch.map Doc.text_block)))
    rw [hcong, ← List.map_flatten, chunks_flatten]
  refine ⟨?_, hids⟩
  have hlen := congrArg List.length hids
  rwa [List.length_map, List.length_map] at hlen

/-- Witness for C3: three documents, batch size 2 (which does not divide
3), a stub embedder. -/
theorem buildIndex_order_witness :
    (buildIndex (fun _ => (1 : ℚ)) (fun ts => ts.map (fun _ => [1])) 2
        [⟨some "h1", some "t1", none, none, none, []⟩,
         ⟨some "h2", some "t2", none, none, none, []⟩,
         ⟨some "h3", some "t3", none, none, none, []⟩]).docs.length
      = [(⟨some "h1", some "t1", none, none, none, []⟩ : Doc ℚ),
         ⟨some "h2", some "t2", none, none, none, []⟩,
         ⟨some "h3", some "t3", none, none, none, []⟩].length
    ∧ (buildIndex (fun _ => (1 : ℚ)) (fun ts => ts.map (fun _ => [1])) 2
        [⟨some "h1", some "t1", none, none, none, []⟩,
         ⟨some "h2", some "t2", none, none, none, []⟩,
         ⟨some "h3", some "t3", none, none, none, []⟩]).docs.map Entry.id
      = [(⟨some "h1", some "t1", none, none, none, []⟩ : Doc ℚ),
         ⟨some "h2", some "t2", none, none, none, []⟩,
         ⟨some "h3", some "t3", none, none, none, []⟩].map Doc.header :=
  buildIndex_order (fun _ => (1 : ℚ)) (fun ts => ts.map (fun _ => [1])) 2
    [⟨some "h1", some "t1", none, none, none, []⟩,
     ⟨some "h2", some "t2", none, none, none, []⟩,
     ⟨some "h3", some "t3", none, none, none, []⟩]
    (by decide) (fun ts => by rw [List.length_map])

/-- Counterexample to claim C8 as stated: a document that carries only
`text_blocks` (no `text_block`) plus an extra field `k`.  The code's
text derivation `chunk.map((d) => d.text_block)` yields `undefined`, not
the concatenation of `text_blocks`; and the entry built by the batch
loop carries no metadata at all, although the document had the extra
field `k` — `add` stores only id, vector and norm. -/
theorem texts_not_concatenated :
    [(⟨some "h", none, some ["a", "b"], none, none, [("k", "v")]⟩ : Doc ℚ)].map
        Doc.text_block = [none]
    ∧ specEmbedText (⟨some "h", none, some ["a", "b"], none, none, [("k", "v")]⟩ : Doc ℚ)
        = some "a b"
    ∧ [(⟨some "h", none, some ["a", "b"], none, none, [("k", "v")]⟩ : Doc ℚ)].map
        Doc.text_block
      ≠ [specEmbedText (⟨some "h", none, some ["a", "b"], none, none, [("k", "v")]⟩ : Doc ℚ)]
    ∧ [(⟨some "h", none, some ["a", "b"], none, none, [("k", "v")]⟩ : Doc ℚ)].map Doc.meta
        = [[("k", "v")]]
    ∧ (addBatch (fun _ => (1 : ℚ)) ⟨[]⟩
        [⟨some "h", none, some ["a", "b"], none, none, [("k", "v")]⟩] [[1]]).docs.map
          Entry.meta
        = [[]] := by
  refine ⟨rfl, rfl, by decide, rfl, rfl⟩

/-- Claim C8 (amended): on the embedding path the orchestrator derives
each document's text as `d.text_block` alone (a `text_blocks` list is
never consulted and never concatenated), calls the embedder once per
batch on exactly those texts, and inserts each resulting vector under the
document's `header`; no other document fields are echoed — every built
entry has an empty metadata bag. -/
theorem buildIndex_texts_and_meta (hypot : List α → α)
    (embed : List (Option String) → List (List α)) (B : Nat) (docs : List (Doc α)) :
    (buildIndex hypot embed B docs).docs
      = ((chunks B docs).map (fun ch =>
          batchEntries hypot ch (embed (ch.map Doc.text_block)))).flatten
    ∧ (buildIndex hypot embed B docs).docs.all (fun e => e.meta.isEmpty) = true := by
  refine ⟨buildIndex_docs_eq hypot embed B docs, ?_⟩
  rw [List.all_eq_true]
  intro e he
  rw [buildIndex_docs_eq] at he
  obtain ⟨li, hli, hei⟩ := List.mem_flatten.mp he
  obtain ⟨ch, _, rfl⟩ := List.mem_map.mp hli
  obtain ⟨j, _, rfl⟩ := List.mem_map.mp hei
  rfl
